import Mathlib

/-!
Shallow embedding of `flaskext/filekit.py` (flask-filekit).

The module manages uploaded source files and derived variants.  We embed:

* `Field` (`filekit.Field`): processor chain, optional explicit extension,
  `pre_cache` flag, with `Field.extension` mirroring `Field.extension()`.
* `BoundField` operations (`get_filename`, `save`, `path`, `url`) as explicit
  state-passing functions over `FKState`.
* `FileKit` operations (`__init__` existence check, `process`, classmethod
  `save`).
* The `Resize` processor's dimension arithmetic over `ℚ` (CPython floats are
  exact on the literal inputs the claims use).

The storage backend (Flask-Uploads) is an external collaborator, not part of
this repository; it is modelled from the spec's backend contract: reliable
existence checks, `save` persisting a stream under a (folder, name) location
(replacing the bytes at that exact location for derivative writes, and
possibly renaming to avoid a collision for source writes), and `path`/`url`
as pure injective computations.  File contents are tracked as `String`s and a
processor's byte-stream transformation as a `String → String` function; the
state also logs each processor-chain execution by field label so that
"the chain ran exactly once" style claims are expressible.

Python exceptions are modelled with `Except PyError`.
-/

namespace Filekit

/-- Python-level failures that the embedded code can raise. -/
inductive PyError where
  | fileNotFound
  | valueError
  | indexError
  | typeError
  | ioError
  deriving DecidableEq

/-- A processor: a byte-stream transformation (`__call__`), optionally
carrying a declared output extension (the `ext` class attribute; `none`
models the attribute being absent, i.e. `hasattr(p, 'ext')` false). -/
structure Processor where
  transform : String → String
  declaredExt : Option String

/-- `filekit.Field`: an ordered processor chain, an optional explicit
extension and the `pre_cache` (eager) flag. -/
structure Field where
  processors : List Processor
  ext : Option String
  pre_cache : Bool

/-- `Field.__init__` (filekit.py lines 91-94): three attribute assignments and
nothing else — it performs no validation and cannot raise, which is why it is
total; the `Except` result type records that no definition-time failure is
possible. -/
def Field.init (processors : List Processor) (ext : Option String)
    (pre_cache : Bool) : Except PyError Field :=
  .ok ⟨processors, ext, pre_cache⟩

/-- `Field.extension` (filekit.py lines 96-99):
`if self.ext is None and hasattr(self.processors[-1], 'ext'): return
self.processors[-1].ext` / `return self.ext`.  When `self.ext is None`,
evaluating `self.processors[-1]` on an empty chain raises `IndexError`;
Python's `and` short-circuits, so a set `ext` never touches the chain. -/
def Field.extension (f : Field) : Except PyError (Option String) :=
  match f.ext with
  | some e => .ok (some e)
  | none =>
      match f.processors.getLast? with
      | none => .error .indexError
      | some p => .ok p.declaredExt

/-- Helper for `rsplit('.', 1)`: split a character list at its LAST `'.'`,
returning the part before and after it, or `none` when no dot occurs. -/
def splitLastDot : List Char → Option (List Char × List Char)
  | [] => none
  | c :: rest =>
      match splitLastDot rest with
      | some (st, ex) => some (c :: st, ex)
      | none => if c = '.' then some ([], rest) else none

/-- Python's `s.rsplit('.', 1)` restricted to the two shapes the code uses:
`some (stem, ext)` when `s` contains a dot, `none` otherwise (in which case
the two-variable unpacking in the code raises `ValueError`). -/
def rsplitDot (s : String) : Option (String × String) :=
  match splitLastDot s.data with
  | none => none
  | some (st, ex) => some (⟨st⟩, ⟨ex⟩)

/-- `BoundField.get_filename` (filekit.py lines 42-49):
`name, ext = self.fkit.filename.rsplit('.', 1)` (raises `ValueError` when the
source filename has no dot), then `if self._field.extension(): ext = ...`
(note the truthiness test: an empty-string extension is falsy and therefore
keeps the source extension), finally `'.'.join((name, ext))`.
`extension()` itself can raise (empty chain, no explicit ext). -/
def get_filename (srcName : String) (f : Field) : Except PyError String :=
  match rsplitDot srcName with
  | none => .error .valueError
  | some (stem, srcExt) =>
      match f.extension with
      | .error e => .error e
      | .ok extOpt =>
          match extOpt with
          | some x => if x = "" then .ok (stem ++ "." ++ srcExt)
                      else .ok (stem ++ "." ++ x)
          | none => .ok (stem ++ "." ++ srcExt)

/-- A backend-relative location inside one kit's upload-set collection:
either a source file at the collection root (`folder=None` in Flask-Uploads
terms) or a derivative under a field-label sub-folder.  Field labels are
Python identifiers (class attribute names pulled in by the metaclass), so
they contain no path separator and the (folder, name) pair determines the
joined path `folder + '/' + name` uniquely. -/
inductive RelPath where
  | root (name : String)
  | sub (folder name : String)
  deriving DecidableEq

/-- The textual relative path, as passed to the backend's `path`/`url`. -/
def relPathStr : RelPath → String
  | .root n => n
  | .sub f n => f ++ "/" ++ n

/-- Modelled from the spec: the backend's `url(relativePath)` is a pure
injective computation from the stored path (Flask-Uploads base URL plus the
relative path). -/
def usetUrl (kitname : String) (p : RelPath) : String :=
  "/_uploads/" ++ kitname ++ "/" ++ relPathStr p

/-- Storage-plus-instrumentation state: `store` is the backend's content map
(most recent write first, so a prepend is an overwrite at that key), and
`runs` logs, by field label, each execution of a field's processor chain. -/
structure FKState where
  store : List (RelPath × String)
  runs : List String

/-- Current content at a location, most recent write winning. -/
def lookupStore : List (RelPath × String) → RelPath → Option String
  | [], _ => none
  | (q, c) :: rest, p => if q = p then some c else lookupStore rest p

/-- Thread a file's content through the processor chain in declared order
(the `for processor in self._field.processors: fp = processor(fp)` loop). -/
def runChain (ps : List Processor) (content : String) : String :=
  ps.foldl (fun c p => p.transform c) content

/-- `BoundField.save` (filekit.py lines 51-57): open the source file (an
absent source raises `IOError`), run every processor over it, then persist
the result via the backend under `(folder, get_filename())` — computed after
the chain has run, matching the call-argument order in the code.  The write
is modelled from the spec (sections 4.4 and 5): the derivative is stored at
exactly the deterministic derived location, replacing prior bytes there. -/
def BoundField.save (folder : String) (field : Field) (src : String)
    (st : FKState) : Except PyError FKState :=
  match lookupStore st.store (RelPath.root src) with
  | none => .error .ioError
  | some content =>
      let out := runChain field.processors content
      match get_filename src field with
      | .error e => .error e
      | .ok fn => .ok ⟨(RelPath.sub folder fn, out) :: st.store, folder :: st.runs⟩

/-- `BoundField.path` (filekit.py lines 59-61) up to the backend's root
prefix: the backend-relative location `os.path.join(self.folder,
self.get_filename())`; a pure computation (no existence check), failing only
when `get_filename` raises. -/
def BoundField.pathRel (folder : String) (field : Field) (src : String) :
    Except PyError RelPath :=
  match get_filename src field with
  | .error e => .error e
  | .ok fn => .ok (RelPath.sub folder fn)

/-- `BoundField.url` (filekit.py lines 63-68): if the derivative's computed
path does not currently exist in storage, run `save` (generation) first, then
return the backend-computed URL for that path. -/
def BoundField.url (kitname folder : String) (field : Field) (src : String)
    (st : FKState) : Except PyError (FKState × String) :=
  match BoundField.pathRel folder field src with
  | .error e => .error e
  | .ok p =>
      match (if (lookupStore st.store p).isSome then Except.ok st
             else BoundField.save folder field src st) with
      | .error e => .error e
      | .ok st1 => .ok (st1, usetUrl kitname p)

/-- The existence check in `FileKit.__init__` (filekit.py lines 186-191):
`if not os.path.exists(self.path): raise FileNotFound` — run at construction
time, before any field is used. -/
def FileKit.initCheck (filename : String) (st : FKState) : Except PyError Unit :=
  if (lookupStore st.store (RelPath.root filename)).isSome then .ok ()
  else .error .fileNotFound

/-- `FileKit.process` (filekit.py lines 218-222): iterate the declared
fields; run `BoundField.save` for a field exactly when `pre_cache or force`.
`fields` is the label-keyed mapping collected by the metaclass, modelled as
an association list (Python dict keys are unique). -/
def FileKit.process (fields : List (String × Field)) (src : String)
    (force : Bool) (st : FKState) : Except PyError FKState :=
  match fields with
  | [] => .ok st
  | (label, f) :: rest =>
      if f.pre_cache || force then
        match BoundField.save label f src st with
        | .error e => .error e
        | .ok st1 => FileKit.process rest src force st1
      else FileKit.process rest src force st

/-- Modelled from the spec: the backend "may rename to avoid collisions"
when persisting a new source file.  One renaming step in Flask-Uploads'
style (`stem_1.ext`) — the exact scheme is the backend's business and no
claim depends on it. -/
def resolveConflict (name : String) : String :=
  match rsplitDot name with
  | some (stem, e) => stem ++ "_1." ++ e
  | none => name ++ "_1"

/-- Modelled from the spec: the backend's `save(stream, name) -> storedName`
for a source upload at the collection root — stores the raw bytes, renaming
when the suggested name collides, and returns the canonical stored name. -/
def usetSaveRoot (st : FKState) (suggested content : String) :
    String × FKState :=
  let stored := if (lookupStore st.store (RelPath.root suggested)).isSome
                then resolveConflict suggested else suggested
  (stored, ⟨(RelPath.root stored, content) :: st.store, st.runs⟩)

/-- `FileKit.save` classmethod (filekit.py lines 197-216): persist the raw
input via the backend (`filename = uset.save(...)`, the returned stored name
becoming canonical), construct the instance (`cls(filename)`, which runs the
existence check), then `instance.process(force=False)`; returns the final
state and the stored name. -/
def FileKit.save (fields : List (String × Field)) (suggested content : String)
    (st : FKState) : Except PyError (FKState × String) :=
  match FileKit.initCheck (usetSaveRoot st suggested content).1
      (usetSaveRoot st suggested content).2 with
  | .error e => .error e
  | .ok _ =>
      match FileKit.process fields (usetSaveRoot st suggested content).1 false
          (usetSaveRoot st suggested content).2 with
      | .error e => .error e
      | .ok st2 => .ok (st2, (usetSaveRoot st suggested content).1)

/-- How many times the processor chain of the field labelled `label` has
executed in this state. -/
def countLabel (label : String) : List String → Nat
  | [] => 0
  | l :: ls => (if l = label then 1 else 0) + countLabel label ls

/-- Run count of a field's chain, read off the state's log. -/
def runCount (label : String) (st : FKState) : Nat := countLabel label st.runs

/-- Discriminator: did the operation raise? -/
def isErr {α : Type} : Except PyError α → Bool
  | .error _ => true
  | .ok _ => false

/-- A Python class-body dict update: sequential assignments where a later
binding to the same name silently replaces the earlier one (the duplicate
never reaches the metaclass in filekit.py lines 21-31, which only moves the
collected `Field` attributes into `attrs['fields']` and raises nothing). -/
def dictInsert (d : List (String × Field)) (k : String) (v : Field) :
    List (String × Field) :=
  match d with
  | [] => [(k, v)]
  | (k2, v2) :: rest =>
      if k2 = k then (k, v) :: rest else (k2, v2) :: dictInsert rest k v

/-- The attribute dict a class body with the given sequential `Field`
assignments hands to `DeclarativeFieldsMetaclass.__new__`. -/
def classBody (binds : List (String × Field)) : List (String × Field) :=
  binds.foldl (fun d kv => dictInsert d kv.1 kv.2) []

/-- Python's `int()` applied to a float: truncation toward zero.  The resize
code only applies it to nonnegative quantities. -/
def pyInt (q : ℚ) : ℤ := if 0 ≤ q then ⌊q⌋ else ⌈q⌉

/-- Python 2's `round()`: round half away from zero (returns a float). -/
def pyRound (q : ℚ) : ℚ :=
  if 0 ≤ q then ((⌊q + 1/2⌋ : ℤ) : ℚ) else ((⌈q - 1/2⌉ : ℤ) : ℚ)

/-- The `Resize` processor's dimension-relevant parameters (filekit.py lines
292-297); `quality` only affects encoding, never dimensions. -/
structure ResizeP where
  width : Option ℚ
  height : Option ℚ
  crop : Bool
  upscale : Bool

/-- The crop-branch box of `Resize.process` (filekit.py lines 307-321) with
the hard-coded `crop_horz = crop_vert = 1` (center crop): returns PIL's
`(box_left, box_upper, box_right, box_lower)`. -/
def resizeCropBox (w h : ℚ) (cur_width cur_height : ℕ) : ℤ × ℤ × ℤ × ℤ :=
  let ratio := max (w / (cur_width : ℚ)) (h / (cur_height : ℚ))
  let resize_x := (cur_width : ℚ) * ratio
  let resize_y := (cur_height : ℚ) * ratio
  let crop_x := |w - resize_x|
  let crop_y := |h - resize_y|
  let x_diff := pyInt (crop_x / 2)
  let y_diff := pyInt (crop_y / 2)
  (x_diff, y_diff, pyInt ((x_diff : ℚ) + w), pyInt ((y_diff : ℚ) + h))

/-- The non-crop branch after the ratio is fixed (filekit.py lines 327-343):
compute the rounded new dimensions; when they would exceed the source's and
upscaling is disabled, return the original image's dimensions (re-encode
without resizing), else resize to the new dimensions. -/
def nonCropDims (ratio : ℚ) (upscale : Bool) (cur_width cur_height : ℕ) :
    Except PyError (ℤ × ℤ) :=
  let ndx := pyInt (pyRound ((cur_width : ℚ) * ratio))
  let ndy := pyInt (pyRound ((cur_height : ℚ) * ratio))
  if ndx > (cur_width : ℤ) ∨ ndy > (cur_height : ℤ) then
    if upscale then .ok (ndx, ndy) else .ok ((cur_width : ℤ), (cur_height : ℤ))
  else .ok (ndx, ndy)

/-- Output dimensions of `Resize.process` (filekit.py lines 303-344) on a
`cur_width × cur_height` source.  In crop mode PIL's `crop(box)` output size
is exactly the box size; `float(None)` in a ratio raises `TypeError`. -/
def resizeDims (r : ResizeP) (cur_width cur_height : ℕ) :
    Except PyError (ℤ × ℤ) :=
  if r.crop then
    match r.width, r.height with
    | some w, some h =>
        let box := resizeCropBox w h cur_width cur_height
        .ok (box.2.2.1 - box.1, box.2.2.2 - box.2.1)
    | _, _ => .error .typeError
  else
    match r.width, r.height with
    | some w, some h =>
        nonCropDims (min (w / (cur_width : ℚ)) (h / (cur_height : ℚ)))
          r.upscale cur_width cur_height
    | none, some h => nonCropDims (h / (cur_height : ℚ)) r.upscale cur_width cur_height
    | some w, none => nonCropDims (w / (cur_width : ℚ)) r.upscale cur_width cur_height
    | none, none => .error .typeError

/-! Concrete data shared by the witnesses. -/

/-- An identity-ish processor declaring extension `jpg`, like `Resize`. -/
def pJpg : Processor := ⟨fun s => "JPG:" ++ s, some "jpg"⟩

/-- A processor with no declared `ext` attribute, like bare `Processor`. -/
def pPlain : Processor := ⟨fun s => s, none⟩

/-- Duplicate-label demo field (earlier binding). -/
def fldA : Field := ⟨[pJpg], some "jpg", false⟩

/-- Duplicate-label demo field (later binding). -/
def fldB : Field := ⟨[pPlain], none, true⟩

/-! Helper lemmas about the storage state and the stateful operations. -/

lemma lookupStore_cons_self (k : RelPath) (v : String)
    (s : List (RelPath × String)) : lookupStore ((k, v) :: s) k = some v := by
  simp [lookupStore]

lemma lookupStore_cons_ne (k p : RelPath) (v : String)
    (s : List (RelPath × String)) (h : k ≠ p) :
    lookupStore ((k, v) :: s) p = lookupStore s p := by
  simp [lookupStore, h]

lemma lookupStore_cons_isSome (k : RelPath) (v : String)
    (s : List (RelPath × String)) (p : RelPath)
    (h : (lookupStore s p).isSome = true) :
    (lookupStore ((k, v) :: s) p).isSome = true := by
  by_cases hk : k = p <;> simp [lookupStore, hk, h]

lemma save_ok_intro (folder : String) (f : Field) (src : String) (st : FKState)
    (c fn : String) (hc : lookupStore st.store (RelPath.root src) = some c)
    (hfn : get_filename src f = .ok fn) :
    BoundField.save folder f src st =
      .ok ⟨(RelPath.sub folder fn, runChain f.processors c) :: st.store,
           folder :: st.runs⟩ := by
  simp [BoundField.save, hc, hfn]

lemma save_ok_elim {folder : String} {f : Field} {src : String}
    {st st' : FKState} (h : BoundField.save folder f src st = .ok st') :
    ∃ c fn, lookupStore st.store (RelPath.root src) = some c ∧
      get_filename src f = .ok fn ∧
      st' = ⟨(RelPath.sub folder fn, runChain f.processors c) :: st.store,
             folder :: st.runs⟩ := by
  unfold BoundField.save at h
  cases hl : lookupStore st.store (RelPath.root src) with
  | none => rw [hl] at h; simp at h
  | some c =>
      rw [hl] at h
      cases hf : get_filename src f with
      | error e => rw [hf] at h; simp at h
      | ok fn =>
          rw [hf] at h
          simp only [Except.ok.injEq] at h
          exact ⟨c, fn, rfl, rfl, h.symm⟩

lemma save_runs {folder : String} {f : Field} {src : String} {st st' : FKState}
    (h : BoundField.save folder f src st = .ok st') :
    st'.runs = folder :: st.runs := by
  obtain ⟨c, fn, _, _, rfl⟩ := save_ok_elim h
  rfl

lemma save_isSome_mono {folder : String} {f : Field} {src : String}
    {st st' : FKState} (h : BoundField.save folder f src st = .ok st')
    (p : RelPath) (hp : (lookupStore st.store p).isSome = true) :
    (lookupStore st'.store p).isSome = true := by
  obtain ⟨c, fn, _, _, rfl⟩ := save_ok_elim h
  exact lookupStore_cons_isSome _ _ _ _ hp

lemma process_nil (src : String) (force : Bool) (st : FKState) :
    FileKit.process [] src force st = .ok st := rfl

lemma process_cons (label : String) (f : Field) (rest : List (String × Field))
    (src : String) (force : Bool) (st : FKState) :
    FileKit.process ((label, f) :: rest) src force st =
      if f.pre_cache || force then
        match BoundField.save label f src st with
        | .error e => .error e
        | .ok st1 => FileKit.process rest src force st1
      else FileKit.process rest src force st := rfl

lemma process_isSome_mono {fields : List (String × Field)} {src : String}
    {force : Bool} {st st' : FKState}
    (h : FileKit.process fields src force st = .ok st') (p : RelPath)
    (hp : (lookupStore st.store p).isSome = true) :
    (lookupStore st'.store p).isSome = true := by
  induction fields generalizing st with
  | nil =>
      rw [process_nil] at h
      simp only [Except.ok.injEq] at h
      exact h ▸ hp
  | cons hd rest ih =>
      obtain ⟨label, f⟩ := hd
      rw [process_cons] at h
      cases hb : f.pre_cache || force with
      | false => rw [hb] at h; exact ih (by simpa using h) hp
      | true =>
          rw [hb] at h
          cases hs : BoundField.save label f src st with
          | error e => rw [hs] at h; simp at h
          | ok st1 =>
              rw [hs] at h
              exact ih (by simpa using h) (save_isSome_mono hs p hp)

lemma process_runCount_ge {fields : List (String × Field)} {src : String}
    {force : Bool} {st st' : FKState} (L : String)
    (h : FileKit.process fields src force st = .ok st') :
    runCount L st ≤ runCount L st' := by
  induction fields generalizing st with
  | nil =>
      rw [process_nil] at h
      simp only [Except.ok.injEq] at h
      exact h ▸ le_rfl
  | cons hd rest ih =>
      obtain ⟨label, f⟩ := hd
      rw [process_cons] at h
      cases hb : f.pre_cache || force with
      | false => rw [hb] at h; exact ih (by simpa using h)
      | true =>
          rw [hb] at h
          cases hs : BoundField.save label f src st with
          | error e => rw [hs] at h; simp at h
          | ok st1 =>
              rw [hs] at h
              refine le_trans ?_ (ih (by simpa using h))
              have hr := save_runs hs
              simp only [runCount, hr, countLabel]
              split <;> omega

lemma process_force_runCount {fields : List (String × Field)} {src : String}
    {st st' : FKState} (h : FileKit.process fields src true st = .ok st') :
    ∀ lf ∈ fields, runCount lf.1 st + 1 ≤ runCount lf.1 st' := by
  induction fields generalizing st with
  | nil => intro lf hlf; cases hlf
  | cons hd rest ih =>
      obtain ⟨label, f⟩ := hd
      rw [process_cons] at h
      have hb : (f.pre_cache || true) = true := by simp
      rw [hb] at h
      cases hs : BoundField.save label f src st with
      | error e => rw [hs] at h; simp at h
      | ok st1 =>
          rw [hs] at h
          have h' : FileKit.process rest src true st1 = .ok st' := by simpa using h
          have hr := save_runs hs
          intro lf hlf
          cases hlf with
          | head =>
              have h1 : runCount label st1 = runCount label st + 1 := by
                show countLabel label st1.runs = countLabel label st.runs + 1
                rw [hr]
                show (if label = label then 1 else 0) + countLabel label st.runs
                    = countLabel label st.runs + 1
                rw [if_pos rfl]
                omega
              have h2 := process_runCount_ge label h'
              show runCount label st + 1 ≤ runCount label st'
              omega
          | tail _ hlf' =>
              have h1 := ih h' lf hlf'
              have h2 : runCount lf.1 st ≤ runCount lf.1 st1 := by
                simp only [runCount, hr, countLabel]
                split <;> omega
              omega

lemma process_runs_field {fields : List (String × Field)} {src : String}
    {force : Bool} {st st' : FKState}
    (h : FileKit.process fields src force st = .ok st') :
    ∀ lf ∈ fields, (lf.2.pre_cache || force) = true →
      ∃ fn, get_filename src lf.2 = .ok fn ∧
        (lookupStore st'.store (RelPath.sub lf.1 fn)).isSome = true := by
  induction fields generalizing st with
  | nil => intro lf hlf; cases hlf
  | cons hd rest ih =>
      obtain ⟨label, f⟩ := hd
      rw [process_cons] at h
      intro lf hlf hpc
      cases hlf with
      | head =>
          rw [hpc] at h
          cases hs : BoundField.save label f src st with
          | error e => rw [hs] at h; simp at h
          | ok st1 =>
              rw [hs] at h
              obtain ⟨c, fn, _, hfn, hst1⟩ := save_ok_elim hs
              refine ⟨fn, hfn, process_isSome_mono (by simpa using h) _ ?_⟩
              rw [hst1]
              simp [lookupStore]
      | tail _ hlf' =>
          cases hb : f.pre_cache || force with
          | false => rw [hb] at h; exact ih (by simpa using h) lf hlf' hpc
          | true =>
              rw [hb] at h
              cases hs : BoundField.save label f src st with
              | error e => rw [hs] at h; simp at h
              | ok st1 => rw [hs] at h; exact ih (by simpa using h) lf hlf' hpc

lemma process_preserves {fields : List (String × Field)} {src : String}
    {force : Bool} {st st' : FKState} (p : RelPath)
    (h : FileKit.process fields src force st = .ok st')
    (hno : ∀ lf ∈ fields, (lf.2.pre_cache || force) = true →
        ∀ fn, get_filename src lf.2 = .ok fn → RelPath.sub lf.1 fn ≠ p) :
    lookupStore st'.store p = lookupStore st.store p := by
  induction fields generalizing st with
  | nil =>
      rw [process_nil] at h
      simp only [Except.ok.injEq] at h
      exact h ▸ rfl
  | cons hd rest ih =>
      obtain ⟨label, f⟩ := hd
      rw [process_cons] at h
      cases hb : f.pre_cache || force with
      | false =>
          rw [hb] at h
          exact ih (by simpa using h) (fun lf hlf => hno lf (List.mem_cons_of_mem _ hlf))
      | true =>
          rw [hb] at h
          cases hs : BoundField.save label f src st with
          | error e => rw [hs] at h; simp at h
          | ok st1 =>
              rw [hs] at h
              obtain ⟨c, fn, _, hfn, hst1⟩ := save_ok_elim hs
              have hkey : RelPath.sub label fn ≠ p :=
                hno (label, f) (List.mem_cons_self _ _) hb fn hfn
              have h1 : lookupStore st1.store p = lookupStore st.store p := by
                rw [hst1]
                exact lookupStore_cons_ne _ _ _ _ hkey
              rw [← h1]
              exact ih (by simpa using h)
                (fun lf hlf => hno lf (List.mem_cons_of_mem _ hlf))

lemma label_inj {l : List (String × Field)} (h : (l.map Prod.fst).Nodup)
    {a b : String × Field} (ha : a ∈ l) (hb : b ∈ l) (hab : a.1 = b.1) :
    a = b := by
  induction l with
  | nil => cases ha
  | cons x xs ih =>
      rw [List.map_cons, List.nodup_cons] at h
      cases ha with
      | head =>
          cases hb with
          | head => rfl
          | tail _ hb' =>
              exfalso
              apply h.1
              rw [hab]
              exact List.mem_map_of_mem Prod.fst hb'
      | tail _ ha' =>
          cases hb with
          | head =>
              exfalso
              apply h.1
              rw [← hab]
              exact List.mem_map_of_mem Prod.fst ha'
          | tail _ hb' => exact ih h.2 ha' hb'

lemma url_eq (kitname folder : String) (f : Field) (src : String)
    (st : FKState) (fn : String) (hfn : get_filename src f = .ok fn) :
    BoundField.url kitname folder f src st =
      match (if (lookupStore st.store (RelPath.sub folder fn)).isSome then
               Except.ok st else BoundField.save folder f src st) with
      | .error e => .error e
      | .ok st1 => .ok (st1, usetUrl kitname (RelPath.sub folder fn)) := by
  unfold BoundField.url BoundField.pathRel
  rw [hfn]

lemma url_ok_elim {kitname folder : String} {f : Field} {src : String}
    {st st' : FKState} {u fn : String}
    (h : BoundField.url kitname folder f src st = .ok (st', u))
    (hfn : get_filename src f = .ok fn) :
    u = usetUrl kitname (RelPath.sub folder fn) ∧
    ((lookupStore st.store (RelPath.sub folder fn)).isSome = true ∧ st' = st ∨
     (lookupStore st.store (RelPath.sub folder fn)).isSome = false ∧
       BoundField.save folder f src st = .ok st') := by
  rw [url_eq kitname folder f src st fn hfn] at h
  cases hp : (lookupStore st.store (RelPath.sub folder fn)).isSome with
  | true =>
      rw [hp] at h
      simp only [if_true, Except.ok.injEq, Prod.mk.injEq] at h
      exact ⟨h.2.symm, Or.inl ⟨rfl, h.1.symm⟩⟩
  | false =>
      rw [hp] at h
      simp only [Bool.false_eq_true, if_false] at h
      cases hs : BoundField.save folder f src st with
      | error e => rw [hs] at h; simp at h
      | ok st1 =>
          rw [hs] at h
          simp only [Except.ok.injEq, Prod.mk.injEq] at h
          exact ⟨h.2.symm, Or.inr ⟨rfl, by rw [h.1]⟩⟩

lemma url_ok_materializes {kitname folder : String} {f : Field} {src : String}
    {st st' : FKState} {u fn : String}
    (h : BoundField.url kitname folder f src st = .ok (st', u))
    (hfn : get_filename src f = .ok fn) :
    (lookupStore st'.store (RelPath.sub folder fn)).isSome = true := by
  obtain ⟨_, hcase⟩ := url_ok_elim h hfn
  cases hcase with
  | inl hc => rw [hc.2]; exact hc.1
  | inr hc =>
      obtain ⟨c, fn', _, hfn', hst1⟩ := save_ok_elim hc.2
      rw [hfn'] at hfn
      simp only [Except.ok.injEq] at hfn
      rw [hst1, ← hfn]
      simp [lookupStore]

lemma filekit_save_ok_elim {fields : List (String × Field)}
    {suggested content stored : String} {st0 st1 : FKState}
    (h : FileKit.save fields suggested content st0 = .ok (st1, stored)) :
    FileKit.process fields stored false
      ⟨(RelPath.root stored, content) :: st0.store, st0.runs⟩ = .ok st1 := by
  have hin : FileKit.initCheck (usetSaveRoot st0 suggested content).1
      (usetSaveRoot st0 suggested content).2 = .ok () := by
    simp [FileKit.initCheck, usetSaveRoot, lookupStore]
  have h2 : (usetSaveRoot st0 suggested content).2 =
      ⟨(RelPath.root (usetSaveRoot st0 suggested content).1, content) :: st0.store,
       st0.runs⟩ := rfl
  unfold FileKit.save at h
  rw [hin, h2] at h
  cases hp : FileKit.process fields (usetSaveRoot st0 suggested content).1 false
      ⟨(RelPath.root (usetSaveRoot st0 suggested content).1, content) :: st0.store,
       st0.runs⟩ with
  | error e => rw [hp] at h; simp at h
  | ok st2 =>
      rw [hp] at h
      simp only [Except.ok.injEq, Prod.mk.injEq] at h
      rw [← h.2, ← h.1]
      exact hp

/-! Concrete states for the witnesses of the stateful claims. -/

/-- A lazy field whose last processor declares `jpg`. -/
def fld1 : Field := ⟨[pJpg], none, false⟩

/-- An eager (`pre_cache = True`) field whose last processor declares `jpg`. -/
def fldE : Field := ⟨[pJpg], none, true⟩

/-- A two-field kit: one eager field, one lazy field. -/
def fieldsW : List (String × Field) := [("big", fldE), ("thumb", fld1)]

/-- One stored source file, no derivatives, no chain runs yet. -/
def st0C1 : FKState := ⟨[(RelPath.root "a.png", "RAW")], []⟩

/-- `st0C1` after the thumb derivative was generated once. -/
def stC1 : FKState :=
  ⟨[(RelPath.sub "thumb" "a.jpg", "JPG:RAW"), (RelPath.root "a.png", "RAW")],
   ["thumb"]⟩

/-- A state in which the thumb derivative already exists (previously cached). -/
def stPrev : FKState :=
  ⟨[(RelPath.sub "thumb" "a.jpg", "OLD"), (RelPath.root "a.png", "RAW")],
   ["thumb"]⟩

/-- The state `FileKit.save fieldsW "a.png" "RAW"` produces from empty
storage: source stored, the eager field's derivative generated, the lazy
field untouched. -/
def stC2 : FKState :=
  ⟨[(RelPath.sub "big" "a.jpg", "JPG:RAW"), (RelPath.root "a.png", "RAW")],
   ["big"]⟩

/-! Claim theorems. -/

/-- C3: for every filename with no source file in the backing collection,
constructing a Kit Instance fails immediately with the not-found error — the
existence check runs in `FileKit.__init__`, not at first use. -/
theorem C3_construct_notfound (filename : String) (st : FKState)
    (h : lookupStore st.store (RelPath.root filename) = none) :
    FileKit.initCheck filename st = .error .fileNotFound := by
  simp [FileKit.initCheck, h]

theorem C3_witness :
    FileKit.initCheck "ghost.png" ⟨[(RelPath.root "a.png", "RAW")], []⟩ =
      .error .fileNotFound :=
  C3_construct_notfound "ghost.png" ⟨[(RelPath.root "a.png", "RAW")], []⟩ rfl

/-- C5: extension resolution — with an explicit extension `E` set,
`extension()` returns `E` regardless of the processor chain; with no explicit
extension, it returns whatever `ext` the last processor declares (`some P`
when it declares `P`, `none` when it declares none). -/
theorem C5_extension_resolution (f : Field) (p : Processor) :
    (∀ E, f.ext = some E → Field.extension f = .ok (some E)) ∧
    (f.ext = none → f.processors.getLast? = some p →
      Field.extension f = .ok p.declaredExt) := by
  constructor
  · intro E hE
    simp [Field.extension, hE]
  · intro h1 h2
    simp [Field.extension, h1, h2]

theorem C5_witness :
    Field.extension ⟨[pJpg], some "gif", false⟩ = .ok (some "gif") ∧
    Field.extension ⟨[pPlain, pJpg], none, false⟩ = .ok (some "jpg") ∧
    Field.extension ⟨[pJpg, pPlain], none, false⟩ = .ok none :=
  ⟨(C5_extension_resolution ⟨[pJpg], some "gif", false⟩ pJpg).1 "gif" rfl,
   (C5_extension_resolution ⟨[pPlain, pJpg], none, false⟩ pJpg).2 rfl rfl,
   (C5_extension_resolution ⟨[pJpg, pPlain], none, false⟩ pPlain).2 rfl rfl⟩

/-- C6 counterexample: with an explicit empty-string extension the effective
extension is `some ""` — not null — yet the derived filename for source
`a.png` is `a.png` (source extension reused, because `get_filename` tests
the extension for truthiness), not the claimed `stem ++ "." ++ "" = "a."`. -/
theorem C6_counterexample :
    Field.extension ⟨[pPlain], some "", false⟩ = .ok (some "") ∧
    get_filename "a.png" ⟨[pPlain], some "", false⟩ = .ok "a.png" ∧
    ("a.png" : String) ≠ "a" ++ "." ++ "" :=
  ⟨rfl, rfl, by decide⟩

/-- C6 (amended): for a Bound Field whose source filename contains a dot,
the derived filename is the stem joined with `.` to the effective extension
when that extension is a non-empty string, and reuses the source filename's
own extension when the effective extension is null OR the empty string (the
code tests truthiness, not only None-ness); the computation is a pure
function of the field and filename alone. -/
theorem C6_derived_filename (f : Field) (src stem srcExt e : String)
    (hsplit : rsplitDot src = some (stem, srcExt)) :
    (Field.extension f = .ok (some e) → e ≠ "" →
       get_filename src f = .ok (stem ++ "." ++ e)) ∧
    (Field.extension f = .ok none →
       get_filename src f = .ok (stem ++ "." ++ srcExt)) ∧
    (Field.extension f = .ok (some "") →
       get_filename src f = .ok (stem ++ "." ++ srcExt)) := by
  refine ⟨fun h1 h2 => ?_, fun h1 => ?_, fun h1 => ?_⟩
  · simp [get_filename, hsplit, h1, h2]
  · simp [get_filename, hsplit, h1]
  · simp [get_filename, hsplit, h1]

theorem C6_witness :
    get_filename "a.png" ⟨[pPlain], some "jpg", false⟩ = .ok ("a" ++ "." ++ "jpg") ∧
    get_filename "a.png" ⟨[pPlain], none, false⟩ = .ok ("a" ++ "." ++ "png") ∧
    get_filename "a.png" ⟨[pPlain], some "", false⟩ = .ok ("a" ++ "." ++ "png") :=
  ⟨(C6_derived_filename ⟨[pPlain], some "jpg", false⟩ "a.png" "a" "png" "jpg" rfl).1
      rfl (by decide),
   (C6_derived_filename ⟨[pPlain], none, false⟩ "a.png" "a" "png" "x" rfl).2.1 rfl,
   (C6_derived_filename ⟨[pPlain], some "", false⟩ "a.png" "a" "png" "x" rfl).2.2 rfl⟩

/-- C7 counterexample: a Field with an empty processor chain is constructed
without any error at definition time — the failure surfaces only on first
use, when `extension()` evaluates `processors[-1]` — and a duplicate field
label raises nothing either: the later class-body binding silently replaces
the earlier one before the metaclass ever sees it. -/
theorem C7_counterexample :
    Field.init [] none false = .ok ⟨[], none, false⟩ ∧
    isErr (Field.init [] none false) = false ∧
    Field.extension ⟨[], none, false⟩ = .error .indexError ∧
    classBody [("thumb", fldA), ("thumb", fldB)] = [("thumb", fldB)] := by
  refine ⟨rfl, rfl, rfl, by simp [classBody, dictInsert]⟩

/-- C7 (amended): configuration errors are NOT detected at Kit Specification
definition time — `Field.__init__` accepts any processor chain (including an
empty one) without validation, an empty chain with no explicit extension
fails only when `extension()` is first used, and a duplicate field label
never fails at all: the later binding silently wins in the class body. -/
theorem C7_no_definition_time_validation (ps : List Processor)
    (eo : Option String) (pc : Bool) (k : String) (f1 f2 : Field) :
    Field.init ps eo pc = .ok ⟨ps, eo, pc⟩ ∧
    Field.extension ⟨[], none, pc⟩ = .error .indexError ∧
    classBody [(k, f1), (k, f2)] = [(k, f2)] := by
  refine ⟨rfl, rfl, by simp [classBody, dictInsert]⟩

/-- C8: in crop mode with a 200×100 source and a 100×100 target, the scale
ratio is max(100/200, 100/100) = 1, the crop box is (50, 0, 150, 100) — the
100px horizontal excess trimmed 50px from each side — and the output
dimensions are exactly 100×100. -/
theorem C8_crop_math_200x100 :
    resizeDims ⟨some 100, some 100, true, false⟩ 200 100 = .ok (100, 100) ∧
    resizeCropBox 100 100 200 100 = (50, 0, 150, 100) ∧
    max ((100 : ℚ)/200) ((100 : ℚ)/100) = 1 := by
  refine ⟨?_, ?_, by norm_num⟩ <;>
    norm_num [resizeDims, resizeCropBox, pyInt]

/-- C9: in non-crop mode with upscaling disabled, whenever the computed new
dimensions would exceed the source's, the resize is skipped and the original
dimensions are returned unchanged. -/
theorem C9_upscale_disabled_skip (w h : ℚ) (cw ch : ℕ)
    (hex : pyInt (pyRound ((cw : ℚ) * min (w/(cw : ℚ)) (h/(ch : ℚ)))) > (cw : ℤ) ∨
           pyInt (pyRound ((ch : ℚ) * min (w/(cw : ℚ)) (h/(ch : ℚ)))) > (ch : ℤ)) :
    resizeDims ⟨some w, some h, false, false⟩ cw ch = .ok ((cw : ℤ), (ch : ℤ)) := by
  show nonCropDims (min (w/(cw : ℚ)) (h/(ch : ℚ))) false cw ch = _
  unfold nonCropDims
  rw [if_pos hex]
  rfl

theorem C9_witness :
    resizeDims ⟨some 100, some 100, false, false⟩ 50 50 = .ok (50, 50) := by
  exact_mod_cast C9_upscale_disabled_skip 100 100 50 50
    (Or.inl (by norm_num [pyInt, pyRound]))

/-- C10: for a Kit Instance whose stored source filename contains no dot,
every Bound Field operation needing the derived filename fails with an
error: `get_filename` raises `ValueError` from the two-variable unpacking of
`rsplit('.', 1)`, so `path` and `url` raise too, and `generate` (save)
raises in every storage state. -/
theorem C10_dotless_filename_fails (kitname folder src : String)
    (field : Field) (st : FKState) (hnodot : rsplitDot src = none) :
    get_filename src field = .error .valueError ∧
    BoundField.pathRel folder field src = .error .valueError ∧
    BoundField.url kitname folder field src st = .error .valueError ∧
    isErr (BoundField.save folder field src st) = true := by
  have hg : get_filename src field = .error .valueError := by
    simp [get_filename, hnodot]
  refine ⟨hg, ?_, ?_, ?_⟩
  · simp [BoundField.pathRel, hg]
  · simp [BoundField.url, BoundField.pathRel, hg]
  · cases hl : lookupStore st.store (RelPath.root src) with
    | none => simp [BoundField.save, hl, isErr]
    | some c => simp [BoundField.save, hl, hg, isErr]

/-- C1: when the derivative's computed path does not exist in storage,
`url()` first runs generation and returns the backend-computed URL for that
path; consequently over two sequential `url()` calls the derivative exists
after the first call, the second call returns the same URL without touching
the state, and the processor chain runs exactly once across both calls. -/
theorem C1_url_lazy_generation_once (kitname folder src fn u : String)
    (field : Field) (st0 st1 : FKState)
    (hfn : get_filename src field = .ok fn)
    (habs : lookupStore st0.store (RelPath.sub folder fn) = none)
    (hurl : BoundField.url kitname folder field src st0 = .ok (st1, u)) :
    u = usetUrl kitname (RelPath.sub folder fn) ∧
    (lookupStore st1.store (RelPath.sub folder fn)).isSome = true ∧
    st1.runs = folder :: st0.runs ∧
    runCount folder st1 = runCount folder st0 + 1 ∧
    BoundField.url kitname folder field src st1 = .ok (st1, u) := by
  obtain ⟨hu, hcase⟩ := url_ok_elim hurl hfn
  cases hcase with
  | inl hc =>
      rw [habs] at hc
      simp at hc
  | inr hc =>
      obtain ⟨c', fn', hsrc', hfn', hst1⟩ := save_ok_elim hc.2
      rw [hfn] at hfn'
      simp only [Except.ok.injEq] at hfn'
      subst hfn'
      have hex : (lookupStore st1.store (RelPath.sub folder fn)).isSome = true := by
        rw [hst1]
        simp [lookupStore]
      refine ⟨hu, hex, by rw [hst1], ?_, ?_⟩
      · rw [hst1]
        show countLabel folder (folder :: st0.runs) = countLabel folder st0.runs + 1
        show (if folder = folder then 1 else 0) + countLabel folder st0.runs
            = countLabel folder st0.runs + 1
        rw [if_pos rfl]
        omega
      · rw [url_eq kitname folder field src st1 fn hfn, hex, hu]
        simp

theorem C1_witness :
    ("/_uploads/pics/thumb/a.jpg" : String) =
      usetUrl "pics" (RelPath.sub "thumb" "a.jpg") ∧
    (lookupStore stC1.store (RelPath.sub "thumb" "a.jpg")).isSome = true ∧
    stC1.runs = "thumb" :: st0C1.runs ∧
    runCount "thumb" stC1 = runCount "thumb" st0C1 + 1 ∧
    BoundField.url "pics" "thumb" fld1 "a.png" stC1 =
      .ok (stC1, "/_uploads/pics/thumb/a.jpg") :=
  C1_url_lazy_generation_once "pics" "thumb" "a.png" "a.jpg"
    "/_uploads/pics/thumb/a.jpg" fld1 st0C1 stC1 rfl rfl rfl

/-- C2: `FileKit.save` persists the raw input under the backend-chosen
stored name, constructs the instance around that name, and processes with
force=false; right after it returns, every eager (`pre_cache`) field's
derivative is materialized, every non-eager field's derivative is still
absent (when it was absent before the upload), and a non-eager field's
derivative exists as soon as its `url()` returns. -/
theorem C2_save_eager_lazy_partition (fields : List (String × Field))
    (suggested content stored : String) (st0 st1 : FKState)
    (hnd : (fields.map Prod.fst).Nodup)
    (h : FileKit.save fields suggested content st0 = .ok (st1, stored)) :
    (lookupStore st1.store (RelPath.root stored)).isSome = true ∧
    (∀ lf ∈ fields, lf.2.pre_cache = true →
       ∃ fn, get_filename stored lf.2 = .ok fn ∧
         (lookupStore st1.store (RelPath.sub lf.1 fn)).isSome = true) ∧
    (∀ lf ∈ fields, lf.2.pre_cache = false → ∀ fn,
       get_filename stored lf.2 = .ok fn →
       lookupStore st0.store (RelPath.sub lf.1 fn) = none →
       lookupStore st1.store (RelPath.sub lf.1 fn) = none) ∧
    (∀ lf ∈ fields, ∀ kitname u : String, ∀ st2 : FKState,
       BoundField.url kitname lf.1 lf.2 stored st1 = .ok (st2, u) →
       ∀ fn, get_filename stored lf.2 = .ok fn →
       (lookupStore st2.store (RelPath.sub lf.1 fn)).isSome = true) := by
  have hproc := filekit_save_ok_elim h
  refine ⟨?_, ?_, ?_, ?_⟩
  · apply process_isSome_mono hproc
    simp [lookupStore]
  · intro lf hlf hpc
    exact process_runs_field hproc lf hlf (by simp [hpc])
  · intro lf hlf hpc fn hfn hnone
    have hpres : lookupStore st1.store (RelPath.sub lf.1 fn) =
        lookupStore ((RelPath.root stored, content) :: st0.store)
          (RelPath.sub lf.1 fn) := by
      apply process_preserves _ hproc
      intro lf' hlf' hpc' fn' hfn' hcon
      have hlab : lf'.1 = lf.1 := by
        injection hcon with h1 h2
      have heq : lf' = lf := label_inj hnd hlf' hlf hlab
      rw [heq, hpc] at hpc'
      simp at hpc'
    rw [hpres, lookupStore_cons_ne]
    · exact hnone
    · intro hcon
      cases hcon
  · intro lf hlf kitname u st2 hurl fn hfn
    exact url_ok_materializes hurl hfn

theorem C2_witness :
    (lookupStore stC2.store (RelPath.root "a.png")).isSome = true ∧
    (∀ lf ∈ fieldsW, lf.2.pre_cache = true →
       ∃ fn, get_filename "a.png" lf.2 = .ok fn ∧
         (lookupStore stC2.store (RelPath.sub lf.1 fn)).isSome = true) ∧
    (∀ lf ∈ fieldsW, lf.2.pre_cache = false → ∀ fn,
       get_filename "a.png" lf.2 = .ok fn →
       lookupStore (⟨[], []⟩ : FKState).store (RelPath.sub lf.1 fn) = none →
       lookupStore stC2.store (RelPath.sub lf.1 fn) = none) ∧
    (∀ lf ∈ fieldsW, ∀ kitname u : String, ∀ st2 : FKState,
       BoundField.url kitname lf.1 lf.2 "a.png" stC2 = .ok (st2, u) →
       ∀ fn, get_filename "a.png" lf.2 = .ok fn →
       (lookupStore st2.store (RelPath.sub lf.1 fn)).isSome = true) :=
  C2_save_eager_lazy_partition fieldsW "a.png" "RAW" "a.png"
    ⟨[], []⟩ stC2 (by decide) rfl

/-- C4: every call to generate() re-runs the full processor chain and
overwrites the derivative at the deterministic derived path — the success
state is fully determined, prepending the freshly computed content, with no
existence check on the old derivative — and under `process(force=true)`
every declared field's chain-invocation count strictly increases. -/
theorem C4_generate_always_reprocesses (folder src c fn : String)
    (field : Field) (st : FKState)
    (hsrc : lookupStore st.store (RelPath.root src) = some c)
    (hfn : get_filename src field = .ok fn) :
    BoundField.save folder field src st =
      .ok ⟨(RelPath.sub folder fn, runChain field.processors c) :: st.store,
           folder :: st.runs⟩ ∧
    lookupStore ((RelPath.sub folder fn, runChain field.processors c) :: st.store)
      (RelPath.sub folder fn) = some (runChain field.processors c) ∧
    (∀ fields : List (String × Field), ∀ st' : FKState,
       FileKit.process fields src true st = .ok st' →
       ∀ lf ∈ fields, runCount lf.1 st + 1 ≤ runCount lf.1 st') := by
  refine ⟨save_ok_intro folder field src st c fn hsrc hfn, by simp [lookupStore], ?_⟩
  intro fields st' hp lf hlf
  exact process_force_runCount hp lf hlf

theorem C4_witness :
    BoundField.save "thumb" fld1 "a.png" stPrev =
      .ok ⟨(RelPath.sub "thumb" "a.jpg", runChain fld1.processors "RAW")
            :: stPrev.store, "thumb" :: stPrev.runs⟩ ∧
    lookupStore ((RelPath.sub "thumb" "a.jpg", runChain fld1.processors "RAW")
        :: stPrev.store) (RelPath.sub "thumb" "a.jpg")
      = some (runChain fld1.processors "RAW") ∧
    (∀ fields : List (String × Field), ∀ st' : FKState,
       FileKit.process fields "a.png" true stPrev = .ok st' →
       ∀ lf ∈ fields, runCount lf.1 stPrev + 1 ≤ runCount lf.1 st') :=
  C4_generate_always_reprocesses "thumb" "a.png" "RAW" "a.jpg" fld1 stPrev
    rfl rfl

theorem C10_witness :
    get_filename "abc" fldA = .error .valueError ∧
    BoundField.pathRel "thumb" fldA "abc" = .error .valueError ∧
    BoundField.url "pics" "thumb" fldA "abc"
        ⟨[(RelPath.root "abc", "RAW")], []⟩ = .error .valueError ∧
    isErr (BoundField.save "thumb" fldA "abc"
        ⟨[(RelPath.root "abc", "RAW")], []⟩) = true :=
  C10_dotless_filename_fails "pics" "thumb" "abc" fldA
    ⟨[(RelPath.root "abc", "RAW")], []⟩ rfl

end Filekit
